import Mathlib

/-!
Shallow embedding of the SamaritanOS registry contract (src/lib.rs) and
verification of its specification claims.

Byte strings (`Vec<u8>` in Rust) are modelled as `List Nat`; `u64` values
are modelled as `Nat` (the only arithmetic in the contract is the nonce
increment `meta.nonce + 1`, whose overflow is unreachable for any feasible
call sequence because the toolchain builds such contracts with overflow
checks, so the checked add reverts the call rather than wrapping).
`ink::storage::Mapping` is modelled as a function into `Option`, with
`Mapping::insert` overwriting the key and `Mapping::get` returning `Option`.
-/

/-- Byte-string decentralised identifier (`type DID = Vec<u8>`). -/
abbrev DID : Type := List Nat

/-- Content-addressed pointer (`type IpfsCid = Vec<u8>`). -/
abbrev IpfsCid : Type := List Nat

/-- File key (`type HashKey = u64`). -/
abbrev HashKey : Type := Nat

/-- Authentication material (`type AuthContent = u64`). -/
abbrev AuthContent : Type := Nat

/-- Opaque metadata bytes (`type DbMetadata = Vec<u8>`). -/
abbrev DbMetadata : Type := List Nat

/-- Bytes of an ASCII string literal, as `str::as_bytes` produces them. -/
def strBytes (s : String) : List Nat :=
  s.data.map Char.toNat

/-- The sentinel public identity `"did:sam:root:apps:xxxxxxxxxxxx"`. -/
def sentinel : DID := strBytes "did:sam:root:apps:xxxxxxxxxxxx"

/-- `struct FileMeta` of src/lib.rs. The fixed 2-slot owner array
`access_list: [DID; 2]` is a pair (slot 0, slot 1). -/
structure FileMeta where
  access_list : DID × DID
  cid : IpfsCid
  nonce : Nat
  db_meta : DbMetadata
deriving DecidableEq

/-- The `Default` value of `FileMeta` derived in src/lib.rs:
empty owner slots, empty cid, zero nonce, empty metadata. -/
def FileMeta.default : FileMeta :=
  { access_list := ([], []), cid := [], nonce := 0, db_meta := [] }

/-- `struct UserInfo` of src/lib.rs. -/
structure UserInfo where
  auth_content : AuthContent
  did_doc_cid : IpfsCid
  root_hash_table : IpfsCid
deriving DecidableEq

/-- A storage mapping: total function into `Option`, absent keys map to `none`. -/
def Map (K V : Type) : Type := K → Option V

/-- `Mapping::insert`: overwrite the value at `k`. -/
def Map.insert {K V : Type} [DecidableEq K] (m : Map K V) (k : K) (v : V) :
    Map K V :=
  fun k' => if k' = k then some v else m k'

/-- `Mapping::get`. -/
def Map.get {K V : Type} (m : Map K V) (k : K) : Option V := m k

/-- The contract storage `struct SamOs` of src/lib.rs: the four tables. -/
structure SamOs where
  auth_list : Map DID UserInfo
  files_meta : Map HashKey FileMeta
  access_list : Map (DID × HashKey) Nat
  file_keys : Map DID (List HashKey)

/-- The constructor `SamOs::new`: all four mappings empty. -/
def SamOs.new : SamOs :=
  { auth_list := fun _ => none
    files_meta := fun _ => none
    access_list := fun _ => none
    file_keys := fun _ => none }

/-- `create_new_account`: unconditional upsert of the `UserInfo` record
(the Rust function always returns `Ok(())`, so only the state is modelled). -/
def create_new_account (s : SamOs) (did : DID) (auth_content : AuthContent)
    (did_doc_cid : IpfsCid) (root_hash_table : IpfsCid) : SamOs :=
  let user : UserInfo :=
    { auth_content := auth_content
      did_doc_cid := did_doc_cid
      root_hash_table := root_hash_table }
  { s with auth_list := s.auth_list.insert did user }

/-- `account_is_auth`: authenticate a DID against stored material. -/
def account_is_auth (s : SamOs) (did : DID) (auth_content : AuthContent) :
    Bool × List Nat :=
  match s.auth_list.get did with
  | some user_info => (user_info.auth_content == auth_content, user_info.root_hash_table)
  | none => (false, [])

/-- `get_file_sync_info`: version nonce and cid of a file key, with the
`(1, empty)` sentinel for unknown keys. -/
def get_file_sync_info (s : SamOs) (hk : HashKey) : Nat × IpfsCid :=
  match s.files_meta.get hk with
  | some meta => (meta.nonce, meta.cid)
  | none => (1, [])

/-- `update_hashtable`: overwrite `root_hash_table` of an existing account,
silent no-op when the DID has no account. -/
def update_hashtable (s : SamOs) (cid : IpfsCid) (did : DID) : SamOs :=
  match s.auth_list.get did with
  | some user_info =>
      let u_info := { user_info with root_hash_table := cid }
      { s with auth_list := s.auth_list.insert did u_info }
  | none => s

/-- The body of the `for did in dids` loop of `update_file_meta`, threading
the mutable `index` counter exactly as the Rust does: the counter is
incremented only inside the `did != sentinel` branch. -/
def owner_step (hk : HashKey) (access_bits : List Bool) (acc : SamOs × Nat)
    (did : DID) : SamOs × Nat :=
  let s := acc.1
  let index := acc.2
  if did ≠ sentinel then
    let s1 :=
      match s.access_list.get (did, hk) with
      | some time =>
          { s with access_list :=
              s.access_list.insert (did, hk) (if access_bits.getD index false then time else 0) }
      | none =>
          { s with access_list := s.access_list.insert (did, hk) 1 }
    let keys :=
      match s1.file_keys.get did with
      | some keys => if ¬ keys.contains hk then keys ++ [hk] else keys
      | none => [hk]
    ({ s1 with file_keys := s1.file_keys.insert did keys }, index + 1)
  else
    acc

/-- `update_file_meta`: write the `FileMeta` record (bumping the nonce),
then run the owner loop over `[did_1, did_2]` starting from `index = 0`. -/
def update_file_meta (s : SamOs) (cid : IpfsCid) (hk : HashKey)
    (metadata : DbMetadata) (did_1 did_2 : DID)
    (access_bit_1 access_bit_2 : Bool) : SamOs :=
  let access_bits : List Bool := [access_bit_1, access_bit_2]
  let dids : List DID := [did_1, did_2]
  let nonce :=
    match s.files_meta.get hk with
    | some meta => meta.nonce + 1
    | none => 1
  let meta : FileMeta :=
    { access_list := (did_1, did_2), cid := cid, nonce := nonce, db_meta := metadata }
  let s1 := { s with files_meta := s.files_meta.insert hk meta }
  (dids.foldl (owner_step hk access_bits) (s1, 0)).1

/-- One chunk of `get_files_info`: the `collator` built for one file key,
using the `Default` record when the key has no `FileMeta`. -/
def file_chunk (s : SamOs) (hk : HashKey) : List Nat :=
  let file := match s.files_meta.get hk with
    | some f => f
    | none => FileMeta.default
  file.access_list.1 ++ strBytes "--" ++ file.access_list.2 ++ strBytes "##"
    ++ file.cid ++ strBytes "####"

/-- `get_files_info`: append the chunk of every key of the DID's index,
in index order, into one byte stream. -/
def get_files_info (s : SamOs) (did : DID) : List Nat :=
  match s.file_keys.get did with
  | some keys => keys.foldl (fun return_data hk => return_data ++ file_chunk s hk) []
  | none => []

/-- One triple of `get_files_extra_info`: nonce, the access value keyed by
the identity in owner slot 0 (`unwrap_or_default` gives 0 when absent), and
the file key. -/
def extra_triple (s : SamOs) (hk : HashKey) : Nat × Nat × Nat :=
  let file := match s.files_meta.get hk with
    | some f => f
    | none => FileMeta.default
  let did_1 := file.access_list.1
  let access_bit1 := match s.access_list.get (did_1, hk) with
    | some v => v
    | none => 0
  (file.nonce, access_bit1, hk)

/-- `get_files_extra_info`: push one triple per key of the DID's index,
in index order. -/
def get_files_extra_info (s : SamOs) (did : DID) : List (Nat × Nat × Nat) :=
  match s.file_keys.get did with
  | some keys => keys.foldl (fun collator hk => collator ++ [extra_triple s hk]) []
  | none => []

/-- `revoke_access`: unconditionally set the access entry to 0 (revoke) or 1. -/
def revoke_access (s : SamOs) (did : DID) (hk : HashKey) (revoke : Bool) : SamOs :=
  { s with access_list :=
      s.access_list.insert (did, hk) (if revoke then 0 else 1) }

/-- The eight exposed contract messages, as abstract operations. The four
read-only messages are included so that "any sequence of the exposed
operations" can be quantified over literally; they leave the state unchanged. -/
inductive Op where
  | createAccount (did : DID) (auth_content : AuthContent)
      (did_doc_cid root_hash_table : IpfsCid)
  | authenticate (did : DID) (auth_content : AuthContent)
  | getSyncInfo (hk : HashKey)
  | updateRootIndex (cid : IpfsCid) (did : DID)
  | updateFileMeta (cid : IpfsCid) (hk : HashKey) (metadata : DbMetadata)
      (did_1 did_2 : DID) (access_bit_1 access_bit_2 : Bool)
  | listFiles (did : DID)
  | listFilesExtra (did : DID)
  | revokeAccess (did : DID) (hk : HashKey) (revoke : Bool)
deriving DecidableEq

/-- Effect of one operation on the contract state. -/
def applyOp (s : SamOs) : Op → SamOs
  | .createAccount did a doc root => create_new_account s did a doc root
  | .authenticate _ _ => s
  | .getSyncInfo _ => s
  | .updateRootIndex cid did => update_hashtable s cid did
  | .updateFileMeta cid hk md d1 d2 b1 b2 => update_file_meta s cid hk md d1 d2 b1 b2
  | .listFiles _ => s
  | .listFilesExtra _ => s
  | .revokeAccess did hk r => revoke_access s did hk r

/-- State after running a sequence of operations from the freshly
constructed contract. -/
def runOps (ops : List Op) : SamOs := ops.foldl applyOp SamOs.new

/-- Whether an operation is an `updateFileMeta` call on file key `hk`. -/
def isUFMOn (hk : HashKey) : Op → Bool
  | .updateFileMeta _ hkp _ _ _ _ _ => hkp == hk
  | _ => false

/-- Number of `updateFileMeta` calls on `hk` in a sequence. -/
def countUFM (hk : HashKey) (ops : List Op) : Nat := ops.countP (isUFMOn hk)

/-- Modelled from the spec sentence for `listFilesExtra` (claim C7): one
triple per key of the identity's index, in index order, carrying the file's
version, the access value keyed by owner slot 0's identity (0 when absent,
the empty-identity lookup when the record is missing), and the key. -/
def listFilesExtraSpec (s : SamOs) (did : DID) : List (Nat × Nat × Nat) :=
  let keys := match s.file_keys.get did with
    | some keys => keys
    | none => []
  keys.map fun hk =>
    let version := match s.files_meta.get hk with
      | some f => f.nonce
      | none => 0
    let owner0 := match s.files_meta.get hk with
      | some f => f.access_list.1
      | none => []
    let accessState := match s.access_list.get (owner0, hk) with
      | some v => v
      | none => 0
    (version, accessState, hk)

/-- Modelled from the spec sentence for `listFiles` (claim C8): per key,
owner-slot-0 bytes, "--", owner-slot-1 bytes, "##", content pointer bytes,
"####", concatenated with no length prefixes; missing records contribute
empty owners and pointer; an identity without an index yields the empty
stream. -/
def listFilesSpec (s : SamOs) (did : DID) : List Nat :=
  let keys := match s.file_keys.get did with
    | some keys => keys
    | none => []
  (keys.map fun hk =>
    let owner0 := match s.files_meta.get hk with
      | some f => f.access_list.1
      | none => []
    let owner1 := match s.files_meta.get hk with
      | some f => f.access_list.2
      | none => []
    let pointer := match s.files_meta.get hk with
      | some f => f.cid
      | none => []
    owner0 ++ strBytes "--" ++ owner1 ++ strBytes "##" ++ pointer
      ++ strBytes "####").flatten

/-! ## Lookup lemmas for the mapping model -/

theorem Map.get_insert {K V : Type} [DecidableEq K] (m : Map K V) (k k' : K)
    (v : V) : (m.insert k v).get k' = if k' = k then some v else m.get k' := rfl

@[simp] theorem Map.get_insert_self {K V : Type} [DecidableEq K] (m : Map K V)
    (k : K) (v : V) : (m.insert k v).get k = some v := by
  simp [Map.get_insert]

theorem Map.get_insert_ne {K V : Type} [DecidableEq K] (m : Map K V)
    (k k' : K) (v : V) (h : k' ≠ k) : (m.insert k v).get k' = m.get k' := by
  simp [Map.get_insert, h]

/-! ## Characterization of the owner loop -/

/-- The value written into the access table for one non-sentinel owner:
a pre-existing entry is kept (flag true) or zeroed (flag false), a missing
entry becomes 1. -/
def newVal : Option Nat → Bool → Nat
  | some time, b => if b then time else 0
  | none, _ => 1

/-- The index-list value written for one non-sentinel owner: append the key
unless already present, start a fresh singleton when no list exists. -/
def pushKey : Option (List HashKey) → HashKey → List HashKey
  | some keys, hk => if ¬ keys.contains hk then keys ++ [hk] else keys
  | none, hk => [hk]

theorem owner_step_of_ne (s : SamOs) (i : Nat) (hk : HashKey)
    (bits : List Bool) (did : DID) (hd : did ≠ sentinel) :
    owner_step hk bits (s, i) did =
      ({ s with
          access_list := s.access_list.insert (did, hk)
            (newVal (s.access_list.get (did, hk)) (bits.getD i false)),
          file_keys := s.file_keys.insert did (pushKey (s.file_keys.get did) hk) },
        i + 1) := by
  cases hacc : s.access_list (did, hk) <;>
    cases hkeys : s.file_keys did <;>
      simp [owner_step, hd, newVal, pushKey, Map.get, hacc, hkeys]

@[simp] theorem owner_step_sentinel (hk : HashKey) (bits : List Bool)
    (acc : SamOs × Nat) : owner_step hk bits acc sentinel = acc := by
  simp [owner_step]

/-- The nonce computation of `update_file_meta`. -/
def bumpNonce : Option FileMeta → Nat
  | some meta => meta.nonce + 1
  | none => 1

/-- The record written into `files_meta` by `update_file_meta`. -/
def newMeta (s : SamOs) (cid : IpfsCid) (hk : HashKey) (md : DbMetadata)
    (d1 d2 : DID) : FileMeta :=
  { access_list := (d1, d2), cid := cid,
    nonce := bumpNonce (s.files_meta.get hk), db_meta := md }

theorem update_file_meta_eq (s : SamOs) (cid : IpfsCid) (hk : HashKey)
    (md : DbMetadata) (d1 d2 : DID) (b1 b2 : Bool) :
    update_file_meta s cid hk md d1 d2 b1 b2 =
      (owner_step hk [b1, b2]
        (owner_step hk [b1, b2]
          ({ s with files_meta := s.files_meta.insert hk (newMeta s cid hk md d1 d2) }, 0)
          d1)
        d2).1 := by
  cases hm : s.files_meta hk <;>
    simp [update_file_meta, bumpNonce, newMeta, Map.get, hm]

theorem pair_ne_of_fst_ne {a b : DID} {k1 k2 : HashKey} (h : a ≠ b) :
    (a, k1) ≠ (b, k2) :=
  fun he => h (congrArg Prod.fst he)

/-- Claim C1, amended: for a pre-existing access entry of a non-sentinel
owner slot, `update_file_meta` overwrites it with its own value when the
effective flag is true and with 0 when it is false, where the effective
flag of slot 0 is `grantA`, and the effective flag of slot 1 is `grantB`
when slot 0 is non-sentinel but `grantA` when slot 0 is the sentinel
(the loop's index counter is only advanced for non-sentinel slots). -/
theorem updateFileMeta_existing_entry
    (s : SamOs) (cid : IpfsCid) (hk : HashKey) (md : DbMetadata)
    (did_1 did_2 : DID) (b1 b2 : Bool) (v : Nat) (hne : did_1 ≠ did_2) :
    (did_1 ≠ sentinel → s.access_list.get (did_1, hk) = some v →
      (update_file_meta s cid hk md did_1 did_2 b1 b2).access_list.get (did_1, hk)
        = some (if b1 then v else 0)) ∧
    (did_1 ≠ sentinel → did_2 ≠ sentinel → s.access_list.get (did_2, hk) = some v →
      (update_file_meta s cid hk md did_1 did_2 b1 b2).access_list.get (did_2, hk)
        = some (if b2 then v else 0)) ∧
    (did_1 = sentinel → did_2 ≠ sentinel → s.access_list.get (did_2, hk) = some v →
      (update_file_meta s cid hk md did_1 did_2 b1 b2).access_list.get (did_2, hk)
        = some (if b1 then v else 0)) := by
  refine ⟨?_, ?_, ?_⟩
  · intro h1 hv
    rw [update_file_meta_eq]
    by_cases h2 : did_2 = sentinel
    · subst h2
      rw [owner_step_of_ne _ _ _ _ _ h1, owner_step_sentinel]
      simp [Map.get_insert_self, newVal, hv]
    · rw [owner_step_of_ne _ _ _ _ _ h1, owner_step_of_ne _ _ _ _ _ h2]
      rw [Map.get_insert_ne _ _ _ _ (pair_ne_of_fst_ne hne)]
      simp [Map.get_insert_self, newVal, hv]
  · intro h1 h2 hv
    rw [update_file_meta_eq]
    rw [owner_step_of_ne _ _ _ _ _ h1, owner_step_of_ne _ _ _ _ _ h2]
    rw [Map.get_insert_self]
    rw [Map.get_insert_ne _ _ _ _ (pair_ne_of_fst_ne (Ne.symm hne))]
    simp [newVal, hv]
  · intro h1 h2 hv
    subst h1
    rw [update_file_meta_eq, owner_step_sentinel, owner_step_of_ne _ _ _ _ _ h2]
    simp [Map.get_insert_self, newVal, hv]

/-- Claim C5, amended: a non-sentinel owner slot with no pre-existing
access entry ends the call with entry 1 regardless of the grant flags,
provided the two owner slots hold distinct identities (when both slots
hold the same fresh identity the second loop iteration re-processes the
entry created by the first — see the aliasing claim). -/
theorem updateFileMeta_fresh_entry
    (s : SamOs) (cid : IpfsCid) (hk : HashKey) (md : DbMetadata)
    (did_1 did_2 : DID) (b1 b2 : Bool) (hne : did_1 ≠ did_2) :
    (did_1 ≠ sentinel → s.access_list.get (did_1, hk) = none →
      (update_file_meta s cid hk md did_1 did_2 b1 b2).access_list.get (did_1, hk)
        = some 1) ∧
    (did_2 ≠ sentinel → s.access_list.get (did_2, hk) = none →
      (update_file_meta s cid hk md did_1 did_2 b1 b2).access_list.get (did_2, hk)
        = some 1) := by
  constructor
  · intro h1 hv
    rw [update_file_meta_eq]
    by_cases h2 : did_2 = sentinel
    · subst h2
      rw [owner_step_of_ne _ _ _ _ _ h1, owner_step_sentinel]
      simp [Map.get_insert_self, newVal, hv]
    · rw [owner_step_of_ne _ _ _ _ _ h1, owner_step_of_ne _ _ _ _ _ h2]
      rw [Map.get_insert_ne _ _ _ _ (pair_ne_of_fst_ne hne)]
      simp [Map.get_insert_self, newVal, hv]
  · intro h2 hv
    rw [update_file_meta_eq]
    by_cases h1 : did_1 = sentinel
    · subst h1
      rw [owner_step_sentinel, owner_step_of_ne _ _ _ _ _ h2]
      simp [Map.get_insert_self, newVal, hv]
    · rw [owner_step_of_ne _ _ _ _ _ h1, owner_step_of_ne _ _ _ _ _ h2]
      rw [Map.get_insert_self]
      rw [Map.get_insert_ne _ _ _ _ (pair_ne_of_fst_ne (Ne.symm hne))]
      simp [newVal, hv]

/-- Claim C9: when both owner slots hold the same non-sentinel identity
and no access entry exists before the call, the second loop iteration sees
the entry value 1 freshly written by the first and applies `grantB` to it,
so the final entry is 1 when `grantB` is true and 0 when it is false. -/
theorem updateFileMeta_aliased_fresh
    (s : SamOs) (cid : IpfsCid) (hk : HashKey) (md : DbMetadata)
    (x : DID) (b1 b2 : Bool) (hx : x ≠ sentinel)
    (hfresh : s.access_list.get (x, hk) = none) :
    (update_file_meta s cid hk md x x b1 b2).access_list.get (x, hk)
      = some (if b2 then 1 else 0) := by
  rw [update_file_meta_eq]
  rw [owner_step_of_ne _ _ _ _ _ hx, owner_step_of_ne _ _ _ _ _ hx]
  simp [Map.get_insert_self, newVal, hfresh]

/-- Claim C2, amended: `(true, stored pointer)` is returned iff an account
exists with a matching credential; with no account the result is
`(false, empty)`; but when an account exists and the credential mismatches
the stored `root_hash_table` is still returned alongside `false` (the code
never substitutes the empty pointer in that case). -/
theorem authenticate_spec (s : SamOs) (did : DID) (cred : AuthContent) :
    ((account_is_auth s did cred).1 = true ↔
       ∃ u, s.auth_list.get did = some u ∧ u.auth_content = cred) ∧
    (s.auth_list.get did = none → account_is_auth s did cred = (false, [])) ∧
    (∀ u, s.auth_list.get did = some u →
       account_is_auth s did cred = (u.auth_content == cred, u.root_hash_table)) := by
  refine ⟨?_, ?_, ?_⟩
  · cases h : s.auth_list.get did with
    | none => simp [account_is_auth, h]
    | some u => simp [account_is_auth, h]
  · intro h
    simp [account_is_auth, h]
  · intro u h
    simp [account_is_auth, h]

theorem update_hashtable_frame (s : SamOs) (cid : IpfsCid) (did : DID) :
    (update_hashtable s cid did).files_meta = s.files_meta ∧
    (update_hashtable s cid did).access_list = s.access_list ∧
    (update_hashtable s cid did).file_keys = s.file_keys := by
  cases h : s.auth_list did <;> simp [update_hashtable, Map.get, h]

/-- Claim C6: `updateRootIndex` on an existing account overwrites only that
account's `root_hash_table` (credential and document pointer unchanged),
leaves all other accounts and the other three tables untouched, and is the
identity on the whole state when the identity has no account. -/
theorem updateRootIndex_frame (s : SamOs) (cid : IpfsCid) (did : DID) :
    (s.auth_list.get did = none → update_hashtable s cid did = s) ∧
    (∀ u, s.auth_list.get did = some u →
      (update_hashtable s cid did).auth_list.get did
          = some ⟨u.auth_content, u.did_doc_cid, cid⟩ ∧
      (∀ d, d ≠ did → (update_hashtable s cid did).auth_list.get d = s.auth_list.get d) ∧
      (update_hashtable s cid did).files_meta = s.files_meta ∧
      (update_hashtable s cid did).access_list = s.access_list ∧
      (update_hashtable s cid did).file_keys = s.file_keys) := by
  constructor
  · intro h
    simp [update_hashtable, h]
  · intro u h
    refine ⟨?_, ?_, update_hashtable_frame s cid did⟩
    · simp [update_hashtable, h, Map.get_insert_self]
    · intro d hd
      simp [update_hashtable, h, Map.get_insert_ne _ _ _ _ hd]

/-! ## Version counting -/

/-- The stored nonce of a file key, defaulting to 0 when no record exists. -/
def nonceOf (s : SamOs) (hk : HashKey) : Nat :=
  match s.files_meta.get hk with
  | some meta => meta.nonce
  | none => 0

theorem bumpNonce_eq (s : SamOs) (hk : HashKey) :
    bumpNonce (s.files_meta.get hk) = nonceOf s hk + 1 := by
  cases h : s.files_meta.get hk <;> simp [bumpNonce, nonceOf, h]

theorem owner_step_files_meta (hk : HashKey) (bits : List Bool)
    (acc : SamOs × Nat) (did : DID) :
    (owner_step hk bits acc did).1.files_meta = acc.1.files_meta := by
  rcases acc with ⟨s, i⟩
  by_cases hd : did = sentinel
  · subst hd; simp
  · rw [owner_step_of_ne _ _ _ _ _ hd]

theorem update_file_meta_files_meta (s : SamOs) (cid : IpfsCid) (hk : HashKey)
    (md : DbMetadata) (d1 d2 : DID) (b1 b2 : Bool) (k : HashKey) :
    (update_file_meta s cid hk md d1 d2 b1 b2).files_meta.get k
      = if k = hk then some (newMeta s cid hk md d1 d2) else s.files_meta.get k := by
  rw [update_file_meta_eq, owner_step_files_meta, owner_step_files_meta]
  exact Map.get_insert _ _ _ _

theorem applyOp_nonce (s : SamOs) (op : Op) (k : HashKey) :
    nonceOf (applyOp s op) k = nonceOf s k + (if isUFMOn k op then 1 else 0) := by
  cases op with
  | updateFileMeta cid hk md d1 d2 b1 b2 =>
      by_cases hkk : hk = k
      · subst hkk
        simp only [applyOp, isUFMOn, beq_self_eq_true, if_pos]
        rw [nonceOf, update_file_meta_files_meta]
        simp [newMeta, bumpNonce_eq]
      · simp only [applyOp, isUFMOn]
        rw [nonceOf, update_file_meta_files_meta]
        simp [Ne.symm hkk, hkk, nonceOf]
  | updateRootIndex cid did =>
      simp [applyOp, nonceOf, isUFMOn, (update_hashtable_frame s cid did).1]
  | createAccount did a doc root =>
      simp [applyOp, nonceOf, isUFMOn, create_new_account]
  | revokeAccess did hk r =>
      simp [applyOp, nonceOf, isUFMOn, revoke_access]
  | authenticate did a => simp [applyOp, isUFMOn]
  | getSyncInfo hk => simp [applyOp, isUFMOn]
  | listFiles did => simp [applyOp, isUFMOn]
  | listFilesExtra did => simp [applyOp, isUFMOn]

theorem applyOp_files_none (s : SamOs) (op : Op) (k : HashKey) :
    ((applyOp s op).files_meta.get k = none)
      ↔ (s.files_meta.get k = none ∧ isUFMOn k op = false) := by
  cases op with
  | updateFileMeta cid hk md d1 d2 b1 b2 =>
      rw [applyOp, update_file_meta_files_meta]
      by_cases hkk : k = hk
      · subst hkk
        simp [isUFMOn]
      · have hk' : hk ≠ k := fun h => hkk h.symm
        simp [isUFMOn, hkk, hk']
  | updateRootIndex cid did =>
      simp [applyOp, isUFMOn, (update_hashtable_frame s cid did).1]
  | createAccount did a doc root =>
      simp [applyOp, isUFMOn, create_new_account]
  | revokeAccess did hk r =>
      simp [applyOp, isUFMOn, revoke_access]
  | authenticate did a => simp [applyOp, isUFMOn]
  | getSyncInfo hk => simp [applyOp, isUFMOn]
  | listFiles did => simp [applyOp, isUFMOn]
  | listFilesExtra did => simp [applyOp, isUFMOn]

theorem foldl_nonce (ops : List Op) :
    ∀ (s : SamOs) (k : HashKey),
      nonceOf (ops.foldl applyOp s) k = nonceOf s k + countUFM k ops := by
  induction ops with
  | nil => intro s k; simp [countUFM]
  | cons op rest ih =>
      intro s k
      rw [List.foldl_cons, ih, applyOp_nonce]
      simp [countUFM, List.countP_cons]
      omega

theorem foldl_files_none (ops : List Op) :
    ∀ (s : SamOs) (k : HashKey),
      ((ops.foldl applyOp s).files_meta.get k = none)
        ↔ (s.files_meta.get k = none ∧ countUFM k ops = 0) := by
  induction ops with
  | nil => intro s k; simp [countUFM]
  | cons op rest ih =>
      intro s k
      rw [List.foldl_cons, ih, applyOp_files_none]
      have hc : countUFM k (op :: rest)
          = countUFM k rest + (if isUFMOn k op then 1 else 0) := by
        simp [countUFM, List.countP_cons]
      rw [hc]
      by_cases hb : isUFMOn k op <;> simp [hb, and_comm]

/-- Claim C3: after N `updateFileMeta` calls on a key (interleaved with any
other operations) `getSyncInfo` reports version N exactly, so the version
starts at 1, grows by 1 per write, is strictly increasing and never resets;
for a key never written it reports the `(1, empty)` sentinel. -/
theorem getSyncInfo_version (ops : List Op) (hk : HashKey) :
    (countUFM hk ops = 0 → get_file_sync_info (runOps ops) hk = (1, [])) ∧
    (0 < countUFM hk ops →
      (get_file_sync_info (runOps ops) hk).1 = countUFM hk ops) := by
  constructor
  · intro h0
    have hnone : (runOps ops).files_meta.get hk = none :=
      (foldl_files_none ops SamOs.new hk).mpr ⟨rfl, h0⟩
    simp [get_file_sync_info, hnone]
  · intro hpos
    have hn : nonceOf (runOps ops) hk = countUFM hk ops := by
      have h := foldl_nonce ops SamOs.new hk
      simpa [runOps, nonceOf, SamOs.new, Map.get] using h
    cases hmeta : (runOps ops).files_meta.get hk with
    | none =>
        rcases (foldl_files_none ops SamOs.new hk).mp hmeta with ⟨-, h0⟩
        omega
    | some m =>
        simp [nonceOf, hmeta] at hn
        simp [get_file_sync_info, hmeta, hn]

/-! ## Sentinel exclusion invariants -/

theorem owner_step_file_keys_sentinel (hk : HashKey) (bits : List Bool)
    (acc : SamOs × Nat) (did : DID) :
    (owner_step hk bits acc did).1.file_keys.get sentinel
      = acc.1.file_keys.get sentinel := by
  rcases acc with ⟨s, i⟩
  by_cases hd : did = sentinel
  · subst hd; simp
  · rw [owner_step_of_ne _ _ _ _ _ hd]
    exact Map.get_insert_ne _ _ _ _ (Ne.symm hd)

theorem owner_step_access_sentinel (hk : HashKey) (bits : List Bool)
    (acc : SamOs × Nat) (did : DID) (k : HashKey) :
    (owner_step hk bits acc did).1.access_list.get (sentinel, k)
      = acc.1.access_list.get (sentinel, k) := by
  rcases acc with ⟨s, i⟩
  by_cases hd : did = sentinel
  · subst hd; simp
  · rw [owner_step_of_ne _ _ _ _ _ hd]
    exact Map.get_insert_ne _ _ _ _ (pair_ne_of_fst_ne (Ne.symm hd))

theorem applyOp_file_keys_sentinel (s : SamOs) (op : Op) :
    (applyOp s op).file_keys.get sentinel = s.file_keys.get sentinel := by
  cases op with
  | updateFileMeta cid hk md d1 d2 b1 b2 =>
      rw [applyOp, update_file_meta_eq, owner_step_file_keys_sentinel,
        owner_step_file_keys_sentinel]
  | updateRootIndex cid did =>
      rw [applyOp, (update_hashtable_frame s cid did).2.2]
  | createAccount did a doc root => rfl
  | revokeAccess did hk r => rfl
  | authenticate did a => rfl
  | getSyncInfo hk => rfl
  | listFiles did => rfl
  | listFilesExtra did => rfl

theorem applyOp_access_sentinel (s : SamOs) (op : Op) (k : HashKey)
    (h : ∀ b, op ≠ Op.revokeAccess sentinel k b) :
    (applyOp s op).access_list.get (sentinel, k)
      = s.access_list.get (sentinel, k) := by
  cases op with
  | revokeAccess did hk r =>
      have hne : (sentinel, k) ≠ (did, hk) := by
        intro he
        injection he with h1 h2
        exact h r (by rw [← h1, ← h2])
      exact Map.get_insert_ne _ _ _ _ hne
  | updateFileMeta cid hk md d1 d2 b1 b2 =>
      rw [applyOp, update_file_meta_eq, owner_step_access_sentinel,
        owner_step_access_sentinel]
  | updateRootIndex cid did =>
      rw [applyOp, (update_hashtable_frame s cid did).2.1]
  | createAccount did a doc root => rfl
  | authenticate did a => rfl
  | getSyncInfo hk => rfl
  | listFiles did => rfl
  | listFilesExtra did => rfl

theorem runOps_file_keys_sentinel (ops : List Op) :
    (runOps ops).file_keys.get sentinel = none := by
  suffices h : ∀ s : SamOs, s.file_keys.get sentinel = none →
      (ops.foldl applyOp s).file_keys.get sentinel = none from h SamOs.new rfl
  induction ops with
  | nil => intro s hs; exact hs
  | cons op rest ih =>
      intro s hs
      rw [List.foldl_cons]
      exact ih _ (by rw [applyOp_file_keys_sentinel]; exact hs)

theorem runOps_access_sentinel (ops : List Op) (k : HashKey)
    (h : ∀ b, Op.revokeAccess sentinel k b ∉ ops) :
    (runOps ops).access_list.get (sentinel, k) = none := by
  suffices hgen : ∀ (l : List Op) (s : SamOs),
      (∀ b, Op.revokeAccess sentinel k b ∉ l) →
      s.access_list.get (sentinel, k) = none →
      (l.foldl applyOp s).access_list.get (sentinel, k) = none from
    hgen ops SamOs.new h rfl
  intro l
  induction l with
  | nil => intro s _ hs; exact hs
  | cons op rest ih =>
      intro s hl hs
      rw [List.foldl_cons]
      refine ih _ (fun b hb => hl b (List.mem_cons_of_mem _ hb)) ?_
      rw [applyOp_access_sentinel s op k
        (fun b he => hl b (he ▸ List.mem_cons_self _ _))]
      exact hs

/-- Claim C4, amended: in every reachable state the sentinel public
identity is never a key of the file-index table; and it is never the
identity component of an access-table key provided `revokeAccess` is never
invoked with the sentinel identity on that key (a `revokeAccess` call made
directly with the sentinel identity does insert a sentinel access entry —
`updateFileMeta` alone never does, no matter which owner slots name the
sentinel). -/
theorem sentinel_never_indexed (ops : List Op) :
    (runOps ops).file_keys.get sentinel = none ∧
    (∀ hk : HashKey, (∀ b, Op.revokeAccess sentinel hk b ∉ ops) →
      (runOps ops).access_list.get (sentinel, hk) = none) :=
  ⟨runOps_file_keys_sentinel ops, fun hk h => runOps_access_sentinel ops hk h⟩

/-- Counterexample to claim C4 as stated: the reachable state produced by
the single exposed operation `revokeAccess(sentinel, 0, true)` has an
access-table entry keyed by the sentinel identity. -/
theorem sentinel_access_cex :
    (runOps [Op.revokeAccess sentinel 0 true]).access_list.get (sentinel, 0)
      = some 0 := by decide

/-- Witness for the amended claim C4 at a concrete operation sequence. -/
theorem sentinel_never_indexed_witness :
    (runOps [Op.updateFileMeta [9] 7 [] [1] sentinel true true]).file_keys.get sentinel
        = none ∧
    (runOps [Op.updateFileMeta [9] 7 [] [1] sentinel true true]).access_list.get (sentinel, 7)
        = none := by
  refine ⟨(sentinel_never_indexed [Op.updateFileMeta [9] 7 [] [1] sentinel true true]).1,
    (sentinel_never_indexed [Op.updateFileMeta [9] 7 [] [1] sentinel true true]).2 7 ?_⟩
  intro b
  cases b <;> decide

/-! ## Query serialization -/

theorem foldl_append_singleton {α β : Type} (g : α → β) (l : List α) :
    ∀ acc : List β, l.foldl (fun r x => r ++ [g x]) acc = acc ++ l.map g := by
  induction l with
  | nil => intro acc; simp
  | cons x xs ih => intro acc; simp [ih]

theorem foldl_append_flatten {α β : Type} (g : α → List β) (l : List α) :
    ∀ acc : List β, l.foldl (fun r x => r ++ g x) acc = acc ++ (l.map g).flatten := by
  induction l with
  | nil => intro acc; simp
  | cons x xs ih => intro acc; simp [ih]

/-- Claim C7: `listFilesExtra` returns exactly one triple per key of the
identity's index, in index order, each carrying the file's version, the
access value keyed by owner-slot-0's identity (0 when no entry, the
empty-identity lookup when the record is missing), and the key itself:
the implementation coincides with the spec-modelled `listFilesExtraSpec`. -/
theorem listFilesExtra_refines (s : SamOs) (did : DID) :
    get_files_extra_info s did = listFilesExtraSpec s did := by
  cases hkeys : s.file_keys.get did with
  | none => simp [get_files_extra_info, listFilesExtraSpec, hkeys]
  | some keys =>
      simp only [get_files_extra_info, listFilesExtraSpec, hkeys]
      rw [foldl_append_singleton]
      rw [List.nil_append]
      apply List.map_congr_left
      intro hk _
      cases hm : s.files_meta.get hk <;>
        simp [extra_triple, FileMeta.default, hm]

/-- Claim C8: `listFiles` returns exactly the concatenation, over the keys
of the identity's index in order, of owner-slot-0 bytes, "--",
owner-slot-1 bytes, "##", content-pointer bytes and "####", with missing
records contributing empty components and an unknown identity yielding the
empty stream: the implementation coincides with the spec-modelled
`listFilesSpec`. -/
theorem listFiles_refines (s : SamOs) (did : DID) :
    get_files_info s did = listFilesSpec s did := by
  cases hkeys : s.file_keys.get did with
  | none => simp [get_files_info, listFilesSpec, hkeys]
  | some keys =>
      simp only [get_files_info, listFilesSpec, hkeys]
      rw [foldl_append_flatten]
      rw [List.nil_append]
      congr 1
      apply List.map_congr_left
      intro hk _
      cases hm : s.files_meta.get hk <;>
        simp [file_chunk, FileMeta.default, hm]

/-- The third component of a `listFilesExtra` triple is the file key it
was produced from. -/
theorem extra_triple_key (s : SamOs) (hk : HashKey) :
    (extra_triple s hk).2.2 = hk := by
  cases hm : s.files_meta.get hk <;> simp [extra_triple, hm]

/-- Claim C10: for a file whose record has the sentinel in owner slot 0,
reached without any `revokeAccess` call naming the sentinel on that key,
every `listFilesExtra` triple reporting that key (for any querying
identity) carries access state 0: the sentinel receives no access entry
from `updateFileMeta` and the missing entry reads as the 0 default. -/
theorem listFilesExtra_sentinel_owner0 (ops : List Op) (hk : HashKey)
    (hrev : ∀ b, Op.revokeAccess sentinel hk b ∉ ops)
    (f : FileMeta) (hf : (runOps ops).files_meta.get hk = some f)
    (hslot : f.access_list.1 = sentinel)
    (did : DID) (t : Nat × Nat × Nat)
    (ht : t ∈ get_files_extra_info (runOps ops) did) (hkey : t.2.2 = hk) :
    t.2.1 = 0 := by
  have hacc : (runOps ops).access_list.get (sentinel, hk) = none :=
    runOps_access_sentinel ops hk hrev
  cases hkeys : (runOps ops).file_keys.get did with
  | none =>
      simp only [get_files_extra_info, hkeys] at ht
      simp at ht
  | some keys =>
      simp only [get_files_extra_info, hkeys] at ht
      rw [foldl_append_singleton, List.nil_append] at ht
      obtain ⟨k', _, hk'⟩ := List.mem_map.mp ht
      have hkk : k' = hk := by rw [← hkey, ← hk', extra_triple_key]
      subst hkk
      rw [← hk']
      simp [extra_triple, hf, hslot, hacc]

/-! ## Counterexamples and witnesses -/

/-- Counterexample to claim C1 as stated: owner [1] in slot 1 has a
pre-existing access entry of value 1 and the slot-1 grant flag (`grantB`)
is true, so the claim demands the entry be overwritten with its own value
1; but because slot 0 holds the sentinel the loop index never advances and
the code applies `grantA = false`, writing 0. -/
theorem updateFileMeta_existing_entry_cex :
    (update_file_meta SamOs.new [9] 7 [] [1] sentinel true true).access_list.get ([1], 7)
        = some 1 ∧
    (update_file_meta (update_file_meta SamOs.new [9] 7 [] [1] sentinel true true)
        [9] 7 [] sentinel [1] false true).access_list.get ([1], 7) = some 0 := by
  decide

/-- Witness for the amended claim C1 at concrete inputs: distinct
non-sentinel owners keep (flag true) and zero (flag false) their
pre-existing entries, and with the sentinel in slot 0 the slot-1 owner is
governed by `grantA`. -/
theorem updateFileMeta_existing_entry_witness :
    (update_file_meta (revoke_access (revoke_access SamOs.new [1] 7 false) [2] 7 false)
        [9] 7 [] [1] [2] true false).access_list.get ([1], 7) = some 1 ∧
    (update_file_meta (revoke_access (revoke_access SamOs.new [1] 7 false) [2] 7 false)
        [9] 7 [] [1] [2] true false).access_list.get ([2], 7) = some 0 ∧
    (update_file_meta (revoke_access SamOs.new [2] 7 false)
        [9] 7 [] sentinel [2] false true).access_list.get ([2], 7) = some 0 := by
  have h1 := updateFileMeta_existing_entry
    (revoke_access (revoke_access SamOs.new [1] 7 false) [2] 7 false)
    [9] 7 [] [1] [2] true false 1 (by decide)
  have h2 := updateFileMeta_existing_entry (revoke_access SamOs.new [2] 7 false)
    [9] 7 [] sentinel [2] false true 1 (by decide)
  refine ⟨?_, ?_, ?_⟩
  · simpa using h1.1 (by decide) (by decide)
  · simpa using h1.2.1 (by decide) (by decide) (by decide)
  · simpa using h2.2.2 rfl (by decide) (by decide)

/-- Counterexample to claim C2 as stated: identity [5] has an account with
credential 42 and stored pointer [1, 2, 3]; authenticating with the wrong
credential 7 returns the stored pointer alongside `false`, not the empty
pointer the claim demands. -/
theorem authenticate_cex :
    account_is_auth (create_new_account SamOs.new [5] 42 [] [1, 2, 3]) [5] 7
        = (false, [1, 2, 3]) ∧
    account_is_auth (create_new_account SamOs.new [5] 42 [] [1, 2, 3]) [5] 7
        ≠ (false, []) := by
  decide

/-- Witness for the amended claim C2 at concrete inputs. -/
theorem authenticate_spec_witness :
    account_is_auth (create_new_account SamOs.new [5] 42 [] [1, 2, 3]) [5] 42
        = (true, [1, 2, 3]) ∧
    account_is_auth SamOs.new [5] 42 = (false, []) := by
  constructor
  · have h := (authenticate_spec (create_new_account SamOs.new [5] 42 [] [1, 2, 3])
      [5] 42).2.2 ⟨42, [], [1, 2, 3]⟩ (by decide)
    simpa using h
  · exact (authenticate_spec SamOs.new [5] 42).2.1 rfl

/-- Witness for claim C3 at a concrete sequence: two `updateFileMeta`
calls on key 100 yield version 2, key 5 with no write yields the
`(1, empty)` sentinel. -/
theorem getSyncInfo_version_witness :
    (get_file_sync_info (runOps [Op.updateFileMeta [9] 100 [] [1] [2] true true,
        Op.updateFileMeta [8] 100 [] [1] [2] true true]) 100).1 = 2 ∧
    get_file_sync_info (runOps [Op.updateFileMeta [9] 100 [] [1] [2] true true,
        Op.updateFileMeta [8] 100 [] [1] [2] true true]) 5 = (1, []) := by
  constructor
  · have h := (getSyncInfo_version [Op.updateFileMeta [9] 100 [] [1] [2] true true,
        Op.updateFileMeta [8] 100 [] [1] [2] true true] 100).2 (by decide)
    rw [h]
    decide
  · exact (getSyncInfo_version [Op.updateFileMeta [9] 100 [] [1] [2] true true,
        Op.updateFileMeta [8] 100 [] [1] [2] true true] 5).1 (by decide)

/-- Counterexample to claim C5 as stated: the fresh non-sentinel owner [1]
(no access entry beforehand) occupies both slots; the claim demands a final
entry of 1 regardless of the grant flags, but with `grantB = false` the
second loop iteration overwrites the freshly created 1 with 0. -/
theorem updateFileMeta_fresh_entry_cex :
    SamOs.new.access_list.get ([1], 7) = none ∧
    (update_file_meta SamOs.new [9] 7 [] [1] [1] true false).access_list.get ([1], 7)
        = some 0 := by
  decide

/-- Witness for the amended claim C5 at concrete inputs: distinct fresh
owners both end with entry 1 even with both grant flags false. -/
theorem updateFileMeta_fresh_entry_witness :
    (update_file_meta SamOs.new [9] 7 [] [1] [2] false false).access_list.get ([1], 7)
        = some 1 ∧
    (update_file_meta SamOs.new [9] 7 [] [1] [2] false false).access_list.get ([2], 7)
        = some 1 := by
  have h := updateFileMeta_fresh_entry SamOs.new [9] 7 [] [1] [2] false false (by decide)
  exact ⟨h.1 (by decide) rfl, h.2 (by decide) rfl⟩

/-- Witness for claim C6 at concrete inputs: overwrite of the root pointer
of an existing account, and the identity no-op on an absent account. -/
theorem updateRootIndex_frame_witness :
    (update_hashtable (create_new_account SamOs.new [5] 42 [6] [7]) [8] [5]).auth_list.get [5]
        = some ⟨42, [6], [8]⟩ ∧
    update_hashtable SamOs.new [8] [5] = SamOs.new := by
  constructor
  · exact ((updateRootIndex_frame (create_new_account SamOs.new [5] 42 [6] [7])
      [8] [5]).2 ⟨42, [6], [7]⟩ (by decide)).1
  · exact (updateRootIndex_frame SamOs.new [8] [5]).1 rfl

/-- Witness for claim C9 at concrete inputs: aliased fresh owner [1] with
`grantB = true` ends with entry 1 (the value created by the first
iteration, re-written by the second). -/
theorem updateFileMeta_aliased_fresh_witness :
    (update_file_meta SamOs.new [9] 7 [] [1] [1] true true).access_list.get ([1], 7)
        = some 1 := by
  have h := updateFileMeta_aliased_fresh SamOs.new [9] 7 [] [1] true true
    (by decide) (by decide)
  simpa using h

/-- Witness for claim C10 at a concrete sequence: file 7 is written with
the sentinel in owner slot 0 and [1] in slot 1; the triple [1] receives
for key 7 carries access state 0. -/
theorem listFilesExtra_sentinel_owner0_witness :
    ((1, 0, 7) : Nat × Nat × Nat) ∈
      get_files_extra_info (runOps [Op.updateFileMeta [9] 7 [] sentinel [1] true true]) [1] ∧
    ((1, 0, 7) : Nat × Nat × Nat).2.1 = 0 := by
  refine ⟨by decide, ?_⟩
  exact listFilesExtra_sentinel_owner0
    [Op.updateFileMeta [9] 7 [] sentinel [1] true true] 7
    (by decide) ⟨(sentinel, [1]), [9], 1, []⟩ (by decide) rfl
    [1] (1, 0, 7) (by decide) rfl
